import Mathlib

/-
Verification of the hsa-tracker receipt core.

This file gives a shallow embedding, in Lean 4, of the Go code in
internal/receipt/service.go and internal/scanning/conversion.go of the
zombor/hsa-tracker repository, and proves properties of that code.

Modelling conventions:
* Go strings are Lean `String` / `List Char`; byte slices are `List Nat`.
* `time.Time` values are abstract instants modelled as `Nat`.
* The decimal amount emitted by the extractor is carried as a `Rat`; the
  float64 arithmetic of `int(receiptData.Amount * 100)` is modelled
  exactly: the decimal is rounded to IEEE-754 binary64 (53-bit
  significand, round-to-nearest ties-to-even; the exponent is left
  unbounded, which agrees with binary64 on every value far from
  overflow/subnormal range, as all currency amounts are), the product
  with the exactly-representable 100 is rounded the same way, and the
  result is truncated toward zero as Go's float-to-int conversion does.
  All of this is integer arithmetic on dyadic significand/exponent pairs,
  so it evaluates in the kernel.
* The record store (the `DB` interface, implemented by BoltDB outside this
  package) and the blob store (the `Storage` interface) are external
  capabilities; they are modelled as explicit in-memory states
  (association lists) together with failure oracles, matching the
  semantics of a key-addressed store with a distinguishable not-found
  condition.  The injected `IDGenerator` and `TimeSource` become explicit
  `genId` / `now` arguments.
* Stateful service methods become state-passing functions returning the
  call's result together with the post-states of both stores.
-/

/-! ## Association-list maps (the key-addressed store semantics) -/

/-- Lookup of a key in an association list (first match wins). -/
def lookupA {α : Type} : List (String × α) → String → Option α
  | [], _ => none
  | (k, v) :: rest, key => if k = key then some v else lookupA rest key

/-- Insert-or-replace of a binding in an association list. -/
def insertA {α : Type} (key : String) (v : α) : List (String × α) → List (String × α)
  | [] => [(key, v)]
  | (k, w) :: rest => if k = key then (key, v) :: rest else (k, w) :: insertA key v rest

/-- Removal of a key from an association list. -/
def eraseA {α : Type} (key : String) : List (String × α) → List (String × α)
  | [] => []
  | (k, w) :: rest => if k = key then rest else (k, w) :: eraseA key rest

theorem lookupA_insertA_self {α : Type} (key : String) (v : α) (l : List (String × α)) :
    lookupA (insertA key v l) key = some v := by
  induction l with
  | nil => simp [insertA, lookupA]
  | cons hd tl ih =>
    obtain ⟨k, w⟩ := hd
    by_cases h : k = key <;> simp [insertA, lookupA, h, ih]

theorem lookupA_insertA_ne {α : Type} (key key' : String) (v : α) (l : List (String × α))
    (h : key ≠ key') : lookupA (insertA key v l) key' = lookupA l key' := by
  induction l with
  | nil => simp [insertA, lookupA, h]
  | cons hd tl ih =>
    obtain ⟨k, w⟩ := hd
    by_cases hk : k = key
    · subst hk
      simp [insertA, lookupA, h, ih]
    · simp only [insertA, if_neg hk]
      by_cases hk' : k = key' <;> simp [lookupA, hk', ih]

/-! ## Filename sanitation (service.go, sanitizeFilename)

The Go function takes the extension with `filepath.Ext` (the suffix of the
final path element starting at its last dot), strips from the base every
character outside `[a-zA-Z0-9\s\-_]` (Go RE2's `\s` is `[\t\n\f\r ]`),
collapses `\s+` runs to a single space, trims surrounding whitespace
(`strings.TrimSpace`), truncates the base to 50 bytes, substitutes the
default base `"receipt"` when the base came out empty, and re-appends the
extension.  The kept character classes are pure ASCII, so Go's byte-level
length and slicing agree with the character-level model used here. -/

/-- Character class of Go RE2's `\s`: tab, newline, form feed, carriage
return and space. -/
def isGoWs (c : Char) : Bool :=
  c = ' ' || c.toNat = 9 || c.toNat = 10 || c.toNat = 12 || c.toNat = 13

/-- Character class trimmed by Go's `strings.TrimSpace` (restricted to the
code points below U+0100: `unicode.IsSpace` there accepts `\t \n \v \f \r`,
space, NEL and NBSP). -/
def isUniWs (c : Char) : Bool :=
  isGoWs c || c.toNat = 11 || c.toNat = 133 || c.toNat = 160

/-- Characters kept by the sanitizing regexp `[^a-zA-Z0-9\s\-_]` → removal:
alphanumerics, Go whitespace, hyphen and underscore survive. -/
def isKeptChar (c : Char) : Bool :=
  c.isAlphanum || isGoWs c || c = '-' || c = '_'

/-- Helper for `extOf`: walks the reversed character list, accumulating the
candidate extension, stopping successfully at a dot and unsuccessfully at a
path separator or the start of the string (mirrors `filepath.Ext`). -/
def extOfAux : List Char → List Char → List Char
  | [], _ => []
  | c :: rest, acc =>
    if c = '.' then c :: acc
    else if c = '/' then []
    else extOfAux rest (c :: acc)

/-- Model of Go's `filepath.Ext`: the suffix beginning at the final dot of
the final path element, or `[]` when there is none. -/
def extOf (cs : List Char) : List Char := extOfAux cs.reverse []

/-- Model of `strings.TrimSuffix(filename, ext)` for `ext = extOf cs`:
the extension produced by `extOf` is a suffix, so this drops its length. -/
def baseOf (cs : List Char) : List Char := cs.take (cs.length - (extOf cs).length)

/-- Model of `regexp [^a-zA-Z0-9\s\-_] → ""`: keep exactly the allowed
characters. -/
def stripDisallowed (cs : List Char) : List Char := cs.filter isKeptChar

/-- Helper for run collapsing; the flag records whether the previous kept
character was whitespace (in which case further whitespace of the same run
is dropped). -/
def collapseAux : Bool → List Char → List Char
  | _, [] => []
  | prevWs, c :: cs =>
    if isGoWs c then
      if prevWs then collapseAux true cs
      else ' ' :: collapseAux true cs
    else c :: collapseAux false cs

/-- Model of `regexp \s+ → " "`: every maximal whitespace run becomes one
space. -/
def collapseWs (cs : List Char) : List Char := collapseAux false cs

/-- Left half of `strings.TrimSpace`. -/
def trimLeftWs (cs : List Char) : List Char := cs.dropWhile isUniWs

/-- Right half of `strings.TrimSpace`. -/
def trimRightWs (cs : List Char) : List Char := (cs.reverse.dropWhile isUniWs).reverse

/-- Model of `strings.TrimSpace`. -/
def goTrimSpace (cs : List Char) : List Char := trimRightWs (trimLeftWs cs)

/-- Full base-name pipeline of `sanitizeFilename`: strip, collapse, trim,
truncate to 50, default to `"receipt"` when empty. -/
def cleanBase (cs : List Char) : List Char :=
  let b := (goTrimSpace (collapseWs (stripDisallowed cs))).take 50
  if b.isEmpty then "receipt".data else b

/-- Model of `sanitizeFilename` from service.go. -/
def sanitizeFilename (s : String) : String :=
  let cs := s.data
  String.mk (cleanBase (baseOf cs) ++ extOf cs)

/-! ## Image normalization (conversion.go)

The decoders themselves (go-fitz PDF rendering, the HEIC decoder, Go's
image package, PNG encoding) are external libraries; they are passed in as
abstract byte-transforming functions, exactly as the Go code dispatches to
them.  What is modelled concretely is the dispatch logic of
`convertToPNG` / `imageToPNG` and the detection functions. -/

/-- Byte codes of the characters of an ASCII string (Go compares
`string(data[i:j])` with string literals byte-wise). -/
def asciiBytes (s : String) : List Nat := s.data.map Char.toNat

/-- Model of `isHEICFormat` from conversion.go: at least 12 bytes, the
4-byte box tag at offset 4 equals "ftyp", and the 4-byte brand at offset 8
is one of heic, heif, mif1, msf1. -/
def isHEICFormat (data : List Nat) : Bool :=
  if data.length < 12 then false
  else
    let tag := (data.drop 4).take 4
    let brand := (data.drop 8).take 4
    if tag = asciiBytes "ftyp" then
      brand = asciiBytes "heic" || brand = asciiBytes "heif" ||
      brand = asciiBytes "mif1" || brand = asciiBytes "msf1"
    else false

/-- ASCII-range model of `strings.ToLower`. -/
def asciiLower (s : String) : String :=
  String.mk (s.data.map fun c => if c.isUpper then c.toLower else c)

/-- Substring test on character lists, modelling `strings.Contains`. -/
def containsSub (hay pat : List Char) : Bool :=
  decide (pat <:+: hay)

/-- Model of `isHEICMimeType` from conversion.go. -/
def isHEICMimeType (mimeType : String) : Bool :=
  let m := asciiLower (String.mk (goTrimSpace mimeType.data))
  m = "image/heic" || m = "image/heif" ||
  containsSub m.data "heic".data || containsSub m.data "heif".data

/-- Model of `imageToPNG`: dispatches to the dedicated HEIC decoder when
either the magic bytes or the declared MIME type indicate HEIC/HEIF, and to
the generic raster decoder otherwise.  The decoders are abstract. -/
def imageToPNG (heicDec genDec : List Nat → Except String (List Nat))
    (imageData : List Nat) (mimeType : String) : Except String (List Nat) :=
  if isHEICFormat imageData || isHEICMimeType mimeType then heicDec imageData
  else genDec imageData

/-- Model of `convertToPNG`: PDFs are rendered, every non-PNG declared type
or HEIC-sniffed payload is decoded and re-encoded, and an already-PNG
payload that does not sniff as HEIC is returned unchanged with a `false`
conversion flag. -/
def convertToPNG (pdfDec heicDec genDec : List Nat → Except String (List Nat))
    (imageData : List Nat) (mimeType : String) : Except String (List Nat × Bool) :=
  if mimeType = "application/pdf" then
    (pdfDec imageData).map (fun png => (png, true))
  else if mimeType ≠ "image/png" || isHEICFormat imageData || isHEICMimeType mimeType then
    (imageToPNG heicDec genDec imageData mimeType).map (fun png => (png, true))
  else
    .ok (imageData, false)

/-- MIME normalization at the top of `prepareImageData`: lowercase, trim
whitespace, default an empty value to image/jpeg. -/
def normMime (contentType : String) : String :=
  let mimeType := asciiLower (String.mk (goTrimSpace contentType.data))
  if mimeType = "" then "image/jpeg" else mimeType

/-- Model of `prepareImageData`: normalize the declared content type,
convert, and always report the canonical type image/png on success. -/
def prepareImageData (pdfDec heicDec genDec : List Nat → Except String (List Nat))
    (imageData : List Nat) (contentType : String) :
    Except String (List Nat × String × Bool) :=
  match convertToPNG pdfDec heicDec genDec imageData (normMime contentType) with
  | .error e => .error e
  | .ok (finalImageData, converted) => .ok (finalImageData, "image/png", converted)

/-! ## Data model (receipt.go) -/

/-- Receipt record (receipt.go).  Times and the parsed date are abstract
`Nat` instants; the amount is integer minor units (cents). -/
structure Receipt where
  id : String
  title : String
  date : Nat
  amount : Int
  filename : String
  contentType : String
  reimbursementID : String
  createdAt : Nat
  updatedAt : Nat
deriving Repr, DecidableEq

/-- Reimbursement record (receipt.go). -/
structure Reimbursement where
  id : String
  receiptIDs : List String
  totalAmount : Int
  createdAt : Nat
  updatedAt : Nat
deriving Repr, DecidableEq

/-- Errors surfaced by the record store: a distinguishable not-found
condition (BoltDB returns "receipt not found: id" / "reimbursement not
found: id"), or an injected backend failure. -/
inductive DBErr where
  | notFound (id : String)
  | backend (msg : String)
deriving Repr, DecidableEq

/-- State of the record store together with failure oracles: the ids on
which `SaveReceipt` fails, and blanket failure flags for the remaining
operations (mirroring the fallible `DB` capability). -/
structure DBState where
  receipts : List (String × Receipt)
  reimbursements : List (String × Reimbursement)
  saveReceiptFails : List String
  saveReimbFails : Bool
  getReceiptFails : Bool
  deleteReceiptFails : Bool
deriving Repr

/-- Model of `DB.GetReceipt`. -/
def DBState.getReceipt (db : DBState) (id : String) : Except DBErr Receipt :=
  if db.getReceiptFails then .error (.backend "database error")
  else
    match lookupA db.receipts id with
    | some r => .ok r
    | none => .error (.notFound id)

/-- Model of `DB.SaveReceipt` (key-addressed put). -/
def DBState.saveReceipt (db : DBState) (r : Receipt) : Except DBErr DBState :=
  if r.id ∈ db.saveReceiptFails then .error (.backend "database error")
  else .ok { db with receipts := insertA r.id r db.receipts }

/-- Model of `DB.DeleteReceipt`. -/
def DBState.deleteReceipt (db : DBState) (id : String) : Except DBErr DBState :=
  if db.deleteReceiptFails then .error (.backend "database error")
  else .ok { db with receipts := eraseA id db.receipts }

/-- Model of `DB.SaveReimbursement`. -/
def DBState.saveReimbursement (db : DBState) (r : Reimbursement) : Except DBErr DBState :=
  if db.saveReimbFails then .error (.backend "database error")
  else .ok { db with reimbursements := insertA r.id r db.reimbursements }

/-- Model of `DB.GetReimbursement`. -/
def DBState.getReimbursement (db : DBState) (id : String) : Except DBErr Reimbursement :=
  match lookupA db.reimbursements id with
  | some r => .ok r
  | none => .error (.notFound id)

/-- State of the blob store (the `Storage` capability of storage.go) with
blanket failure oracles per operation; `LocalStorage.Save` returns the
given filename as the stored path. -/
structure StorageState where
  files : List (String × List Nat)
  saveFails : Bool
  getFails : Bool
  deleteFails : Bool
deriving Repr

/-- Model of `Storage.Save`. -/
def StorageState.save (st : StorageState) (filename : String) (data : List Nat) :
    Except String (String × StorageState) :=
  if st.saveFails then .error "storage error"
  else .ok (filename, { st with files := insertA filename data st.files })

/-- Model of `Storage.Get`. -/
def StorageState.get (st : StorageState) (path : String) : Except String (List Nat) :=
  if st.getFails then .error "storage error"
  else
    match lookupA st.files path with
    | some d => .ok d
    | none => .error "file not found"

/-- Model of `Storage.Delete`; a failing delete leaves the entry in
place. -/
def StorageState.delete (st : StorageState) (path : String) :
    Except String StorageState :=
  if st.deleteFails then .error "storage delete error"
  else .ok { st with files := eraseA path st.files }

/-! ## Amount conversion and date parsing (service.go)

The amount travels as a float64: the extractor's JSON number is decoded to
the nearest binary64 value, and line 137 of service.go computes
`int(receiptData.Amount * 100)` — a binary64 multiplication followed by
truncation toward zero.  The model below implements binary64
round-to-nearest ties-to-even exactly, on significand/exponent pairs of
natural numbers (the exponent is unbounded: overflow and subnormals are
unreachable for currency amounts, where binary64 and this model agree). -/

/-- Fuel-driven binary logarithm: `log2fuel f n` is ⌊log₂ n⌋ whenever
`n ≤ 2 ^ f` and `1 ≤ n`; the first argument only bounds the recursion. -/
def log2fuel : Nat → Nat → Nat
  | 0, _ => 0
  | f + 1, n => if n < 2 then 0 else 1 + log2fuel f (n / 2)

/-- Kernel-evaluable ⌊log₂ n⌋ (0 at 0). -/
def natLg2 (n : Nat) : Nat := log2fuel n n

/-- Decides 2^e ≤ num/den with integer arithmetic only. -/
def pow2LE (e : Int) (num den : Nat) : Bool :=
  if 0 ≤ e then 2 ^ e.toNat * den ≤ num else den ≤ num * 2 ^ (-e).toNat

/-- Binade of the positive rational num/den: the unique e with
2^e ≤ num/den < 2^(e+1).  The difference of the integer logs is off by at
most one, and one comparison corrects it. -/
def pickE (num den : Nat) : Int :=
  let e0 : Int := (natLg2 num : Int) - (natLg2 den : Int)
  if pow2LE e0 num den then e0 else e0 - 1

/-- Round a/b to the nearest integer, ties to even. -/
def roundSig (a b : Nat) : Nat :=
  let n := a / b
  let r := a % b
  if b < 2 * r then n + 1
  else if 2 * r < b then n
  else if n % 2 = 0 then n else n + 1

/-- Dyadic rational m·2^e: the exact value of a binary64 number. -/
structure Dyadic where
  m : Nat
  e : Int
deriving Repr, DecidableEq

/-- Exact rational value of a dyadic number. -/
def Dyadic.toRat (x : Dyadic) : Rat :=
  if 0 ≤ x.e then (x.m : Rat) * 2 ^ x.e.toNat else (x.m : Rat) / 2 ^ (-x.e).toNat

/-- Round the nonnegative rational num/den to binary64 (53-bit significand,
nearest, ties to even): scale into [2^52, 2^53) and round the scaled
significand. -/
def fl64 (num den : Nat) : Dyadic :=
  if num = 0 then ⟨0, 0⟩
  else
    let e := pickE num den
    let s : Int := 52 - e
    let n := if 0 ≤ s then roundSig (num * 2 ^ s.toNat) den
             else roundSig num (den * 2 ^ (-s).toNat)
    ⟨n, e - 52⟩

/-- Binary64 multiplication of a float by a small natural constant (here
100, exactly representable): the exact product re-rounded to 53 bits. -/
def f64MulNat (x : Dyadic) (k : Nat) : Dyadic :=
  if 0 ≤ x.e then fl64 (x.m * k * 2 ^ x.e.toNat) 1
  else fl64 (x.m * k) (2 ^ (-x.e).toNat)

/-- Go's `int(x)` on a nonnegative binary64 value: truncation toward
zero. -/
def truncDyadic (x : Dyadic) : Nat :=
  if 0 ≤ x.e then x.m * 2 ^ x.e.toNat else x.m / 2 ^ (-x.e).toNat

/-- The cents computed by service.go line 137 for the nonnegative decimal
num/den: decode the decimal to binary64, multiply by 100 in binary64,
truncate. -/
def goAmountCentsN (num den : Nat) : Nat :=
  truncDyadic (f64MulNat (fl64 num den) 100)

/-- Model of line 137 of service.go, `amountCents :=
int(receiptData.Amount * 100)`, for an extractor decimal d (binary64
rounding and truncation are both symmetric in the sign). -/
def amountToMinorUnits (d : Rat) : Int :=
  if 0 ≤ d.num then (goAmountCentsN d.num.toNat d.den : Int)
  else -(goAmountCentsN (-d.num).toNat d.den : Int)

/-- Decimal digit value of a character, if it is a digit. -/
def digitVal (c : Char) : Option Nat :=
  if c.isDigit then some (c.toNat - 48) else none

/-- Day count of a month in the proleptic Gregorian calendar, as validated
by Go's `time.Parse`. -/
def daysInMonth (y m : Nat) : Nat :=
  if m = 2 then
    if y % 4 = 0 && (y % 100 ≠ 0 || y % 400 = 0) then 29 else 28
  else if m = 4 || m = 6 || m = 9 || m = 11 then 30
  else 31

/-- Model of `time.Parse("2006-01-02", s)`: a strict `YYYY-MM-DD` parse
producing an abstract day number (`y*10000 + m*100 + d`) on success. -/
def parseISODate (s : String) : Option Nat :=
  match s.data with
  | [y1, y2, y3, y4, h1, m1, m2, h2, d1, d2] =>
    if h1 = '-' && h2 = '-' then
      match digitVal y1, digitVal y2, digitVal y3, digitVal y4,
            digitVal m1, digitVal m2, digitVal d1, digitVal d2 with
      | some a, some b, some c, some d, some e, some f, some g, some h =>
        let year := ((a * 10 + b) * 10 + c) * 10 + d
        let month := e * 10 + f
        let day := g * 10 + h
        if 1 ≤ month && month ≤ 12 && 1 ≤ day && day ≤ daysInMonth year month then
          some (year * 10000 + month * 100 + day)
        else none
      | _, _, _, _, _, _, _, _ => none
    else none
  | _ => none

/-! ## The service operations (service.go) -/

/-- Structured data returned by the extractor (`scanning.ReceiptData`);
the amount is the major-unit decimal. -/
structure ReceiptData where
  title : String
  date : String
  amount : Rat
deriving Repr, DecidableEq

/-- Extractor capability: bytes and declared content type in, structured
guess or provider error out (`scanning.Scanner.ScanReceipt`). -/
def Scanner : Type := List Nat → String → Except String ReceiptData

/-- Errors returned by the service methods, one constructor per
`fmt.Errorf` wrap site in service.go; each keeps the wrapped cause and, for
the reimbursement paths, the receipt id named in the message. -/
inductive SvcError where
  | savingFile (e : String)
  | scanning (e : String)
  | savingToDb (e : DBErr)
  | getting (e : DBErr)
  | gettingForDeletion (e : DBErr)
  | deletingFromDb (e : DBErr)
  | gettingFile (e : String)
  | atLeastOneReceipt
  | gettingReceipt (id : String) (e : DBErr)
  | alreadyReimbursed (id : String)
  | savingReimbursement (e : DBErr)
  | gettingForUpdate (id : String) (e : DBErr)
  | updatingReceipt (id : String) (e : DBErr)
deriving Repr, DecidableEq

/-- Receipt id named in a reimbursement-path error, when the message embeds
one. -/
def SvcError.namedId : SvcError → Option String
  | .gettingReceipt id _ => some id
  | .alreadyReimbursed id => some id
  | .gettingForUpdate id _ => some id
  | .updatingReceipt id _ => some id
  | _ => none

/-- Model of `Service.ProcessReceipt`: generate the id, sanitize the
filename, store the original blob, run the extractor (deleting the blob and
ignoring the delete's own error on extraction failure), parse the date with
a now-fallback, convert the amount, build the Receipt, and save it to the
record store (again deleting the blob on save failure).  Returns the call
result together with both post-states. -/
def processReceipt (db : DBState) (st : StorageState) (scan : Scanner)
    (genId : String) (now : Nat) (filename : String) (data : List Nat)
    (contentType : String) : Except SvcError Receipt × DBState × StorageState :=
  let id := genId
  let cleanFilename := sanitizeFilename filename
  match st.save (id ++ "_" ++ cleanFilename) data with
  | .error e => (.error (.savingFile e), db, st)
  | .ok (savedPath, st1) =>
    match scan data contentType with
    | .error e =>
      let st2 := match st1.delete savedPath with
        | .ok s => s
        | .error _ => st1
      (.error (.scanning e), db, st2)
    | .ok rd =>
      let date := match parseISODate rd.date with
        | some d => d
        | none => now
      let amountCents := amountToMinorUnits rd.amount
      let receipt : Receipt :=
        { id := id, title := rd.title, date := date, amount := amountCents,
          filename := savedPath, contentType := contentType,
          reimbursementID := "", createdAt := now, updatedAt := now }
      match db.saveReceipt receipt with
      | .error e =>
        let st2 := match st1.delete savedPath with
          | .ok s => s
          | .error _ => st1
        (.error (.savingToDb e), db, st2)
      | .ok db1 => (.ok receipt, db1, st1)

/-- Model of `Service.GetReceipt`. -/
def getReceiptSvc (db : DBState) (id : String) : Except SvcError Receipt :=
  match db.getReceipt id with
  | .error e => .error (.getting e)
  | .ok r => .ok r

/-- Model of `Service.DeleteReceipt`: read the record (propagating the
failure), attempt the blob delete swallowing its error, then delete the
record (propagating the failure). -/
def deleteReceipt (db : DBState) (st : StorageState) (id : String) :
    Except SvcError Unit × DBState × StorageState :=
  match db.getReceipt id with
  | .error e => (.error (.gettingForDeletion e), db, st)
  | .ok r =>
    let st1 := match st.delete r.filename with
      | .ok s => s
      | .error _ => st
    match db.deleteReceipt id with
    | .error e => (.error (.deletingFromDb e), db, st1)
    | .ok db1 => (.ok (), db1, st1)

/-- First pass of `CreateReimbursement` (lines 223-234): for each id in
order, read the receipt (wrapping a failure with the id), reject an already
reimbursed one, and accumulate the amount total. -/
def validateAndTotal (db : DBState) : List String → Except SvcError Int
  | [] => .ok 0
  | rid :: rest =>
    match db.getReceipt rid with
    | .error e => .error (.gettingReceipt rid e)
    | .ok r =>
      if r.reimbursementID ≠ "" then .error (.alreadyReimbursed rid)
      else
        match validateAndTotal db rest with
        | .error e => .error e
        | .ok t => .ok (r.amount + t)

/-- Second pass of `CreateReimbursement` (lines 251-261): re-read each
receipt from the current store state, set its back-reference and
`updatedAt`, and write it back, stopping at the first failure with the
store as mutated so far. -/
def tagReceipts (rid : String) (now : Nat) (db : DBState) :
    List String → Except SvcError Unit × DBState
  | [] => (.ok (), db)
  | id :: rest =>
    match db.getReceipt id with
    | .error e => (.error (.gettingForUpdate id e), db)
    | .ok r =>
      let r' := { r with reimbursementID := rid, updatedAt := now }
      match db.saveReceipt r' with
      | .error e => (.error (.updatingReceipt id e), db)
      | .ok db1 => tagReceipts rid now db1 rest

/-- Model of `Service.CreateReimbursement`: reject an empty list, validate
and total in a first pass, write the Reimbursement record, then tag the
member receipts in a second pass with no rollback on failure. -/
def createReimbursement (db : DBState) (genId : String) (now : Nat)
    (receiptIDs : List String) : Except SvcError Reimbursement × DBState :=
  if receiptIDs.isEmpty then (.error .atLeastOneReceipt, db)
  else
    match validateAndTotal db receiptIDs with
    | .error e => (.error e, db)
    | .ok totalAmount =>
      let reimbursement : Reimbursement :=
        { id := genId, receiptIDs := receiptIDs, totalAmount := totalAmount,
          createdAt := now, updatedAt := now }
      match db.saveReimbursement reimbursement with
      | .error e => (.error (.savingReimbursement e), db)
      | .ok db1 =>
        match tagReceipts genId now db1 receiptIDs with
        | (.error e, db2) => (.error e, db2)
        | (.ok _, db2) => (.ok reimbursement, db2)

/-! ## Store lemmas -/

theorem mem_keys_insertA {α : Type} (key x : String) (v : α) (l : List (String × α))
    (h : x ∈ (insertA key v l).map Prod.fst) : x = key ∨ x ∈ l.map Prod.fst := by
  induction l with
  | nil => simpa [insertA] using h
  | cons hd tl ih =>
    obtain ⟨k, w⟩ := hd
    by_cases hk : k = key
    · subst hk
      simp only [insertA, if_true, List.map_cons, List.mem_cons] at h ⊢
      tauto
    · simp only [insertA, if_neg hk, List.map_cons, List.mem_cons] at h ⊢
      rcases h with h | h
      · exact Or.inr (Or.inl h)
      · rcases ih h with h' | h' <;> tauto

theorem nodup_keys_insertA {α : Type} (key : String) (v : α) (l : List (String × α))
    (h : (l.map Prod.fst).Nodup) : ((insertA key v l).map Prod.fst).Nodup := by
  induction l with
  | nil => simp [insertA]
  | cons hd tl ih =>
    obtain ⟨k, w⟩ := hd
    simp only [List.map_cons, List.nodup_cons] at h
    by_cases hk : k = key
    · subst hk
      simpa [insertA, List.nodup_cons] using h
    · simp only [insertA, if_neg hk, List.map_cons, List.nodup_cons]
      refine ⟨fun hmem => ?_, ih h.2⟩
      rcases mem_keys_insertA key k v tl hmem with h' | h'
      · exact hk h'
      · exact h.1 h'

theorem lookupA_eq_none_of_not_mem {α : Type} (x : String) (l : List (String × α))
    (h : x ∉ l.map Prod.fst) : lookupA l x = none := by
  induction l with
  | nil => rfl
  | cons hd tl ih =>
    obtain ⟨k, w⟩ := hd
    simp only [List.map_cons, List.mem_cons, not_or] at h
    simp [lookupA, Ne.symm h.1, ih h.2]

theorem lookupA_eraseA_self {α : Type} (key : String) (l : List (String × α))
    (h : (l.map Prod.fst).Nodup) : lookupA (eraseA key l) key = none := by
  induction l with
  | nil => rfl
  | cons hd tl ih =>
    obtain ⟨k, w⟩ := hd
    simp only [List.map_cons, List.nodup_cons] at h
    by_cases hk : k = key
    · subst hk
      simp only [eraseA, if_pos rfl]
      exact lookupA_eq_none_of_not_mem k tl h.1
    · simp [eraseA, hk, lookupA, ih h.2]

theorem lookupA_eraseA_ne {α : Type} (key x : String) (l : List (String × α))
    (h : key ≠ x) : lookupA (eraseA key l) x = lookupA l x := by
  induction l with
  | nil => rfl
  | cons hd tl ih =>
    obtain ⟨k, w⟩ := hd
    by_cases hk : k = key
    · subst hk
      simp [eraseA, lookupA, h]
    · simp [eraseA, hk, lookupA, ih]

/-! ## Concrete fixtures used by witnesses -/

/-- Record store with no records and no injected failures. -/
def emptyDB : DBState :=
  { receipts := [], reimbursements := [], saveReceiptFails := [],
    saveReimbFails := false, getReceiptFails := false, deleteReceiptFails := false }

/-- Blob store with no files and no injected failures. -/
def emptyStorage : StorageState :=
  { files := [], saveFails := false, getFails := false, deleteFails := false }

/-- Extractor stub returning the data used throughout the repository's own
tests: title "Test Receipt", date 2024-01-15, amount 25.99 dollars. -/
def sampleScanner : Scanner :=
  fun _ _ => .ok { title := "Test Receipt", date := "2024-01-15", amount := (2599 : Rat) / 100 }

/-- Extractor stub that always fails. -/
def failingScanner : Scanner := fun _ _ => .error "scan error"

/-! ## C4: truncating amount conversion

The claim asserts the stored cents equal ⌊d · 100⌋ of the exact decimal d.
That ignores the binary64 rounding of both the decoded decimal and the
product: 0.29 decodes to a double slightly below 0.29, the product is
28.999999999999996, and Go stores 28 while ⌊0.29 · 100⌋ = 29.  What does
hold (the amended claim) is truncation-equals-floor of the *binary64*
product: the stored cents are exactly the floor of the float product,
because the product is nonnegative, so truncation toward zero never rounds
up. -/

theorem truncDyadic_eq_floor (x : Dyadic) :
    (truncDyadic x : Int) = ⌊x.toRat⌋ := by
  unfold truncDyadic Dyadic.toRat
  by_cases he : 0 ≤ x.e
  · rw [if_pos he, if_pos he,
      show ((x.m : Rat)) * 2 ^ x.e.toNat = (((x.m * 2 ^ x.e.toNat : Nat) : Rat)) from by
        push_cast; ring,
      Int.floor_natCast]
  · rw [if_neg he, if_neg he,
      show ((2 : Rat) ^ (-x.e).toNat) = (((2 ^ (-x.e).toNat : Nat) : Rat)) from by
        push_cast; ring,
      Rat.floor_natCast_div_natCast]
    exact Int.ofNat_ediv _ _

/-- C4 counterexample: for the extractor decimal 0.29 the program stores
28 cents — the binary64 value of 0.29 is slightly below 0.29 and the float
product is 28.999999999999996 — while ⌊0.29 · 100⌋ = 29, refuting the
claimed equality with the floor of the exact product. -/
theorem claim_C4_counterexample :
    amountToMinorUnits (0.29 : Rat) = 28 ∧ ⌊(0.29 : Rat) * 100⌋ = 29 := by
  constructor
  · rw [show (0.29 : Rat) = Rat.mk' 29 100 (by decide) (by decide) from by
      rw [Rat.mk'_eq_divInt, Rat.divInt_eq_div]; norm_num]
    decide
  · rw [show (0.29 : Rat) * 100 = ((29 : Nat) : Rat) from by norm_num,
      Int.floor_natCast]
    simp

/-- C4 (amended): for every decimal amount d ≥ 0 returned by the
extractor, the integer minor-units amount stored on the Receipt equals the
floor of the binary64 product of d and 100 (truncation toward zero, which
on this nonnegative product is the floor — not rounding); because of the
binary64 rounding this can be one cent below ⌊d · 100⌋, as for 0.29. -/
theorem claim_C4_amount_floor (d : Rat) (h : 0 ≤ d) :
    amountToMinorUnits d = ⌊(f64MulNat (fl64 d.num.toNat d.den) 100).toRat⌋ := by
  have hnum : 0 ≤ d.num := Rat.num_nonneg.mpr h
  unfold amountToMinorUnits
  rw [if_pos hnum]
  exact truncDyadic_eq_floor _

/-- C4 witness: at the decimal 0.29 the amended equality holds and the
stored amount is the float-product floor 28. -/
theorem claim_C4_amount_floor_witness :
    amountToMinorUnits (0.29 : Rat) =
      ⌊(f64MulNat (fl64 (0.29 : Rat).num.toNat (0.29 : Rat).den) 100).toRat⌋ ∧
    amountToMinorUnits (0.29 : Rat) = 28 := by
  refine ⟨claim_C4_amount_floor (0.29 : Rat) (by norm_num), ?_⟩
  rw [show (0.29 : Rat) = Rat.mk' 29 100 (by decide) (by decide) from by
    rw [Rat.mk'_eq_divInt, Rat.divInt_eq_div]; norm_num]
  decide

/-! ## C9: canonical-format convergence and detection precedence -/

/-- C9: normalization always converges on the canonical raster format —
every successful `prepareImageData` reports image/png; an input declared
as the canonical format (PNG) whose bytes do not carry the HEIC magic
signature is returned unchanged with the conversion flag false; and HEIC
magic bytes (the "ftyp" box tag at offset 4 followed by a brand in
heic/heif/mif1/msf1) override any declared non-PDF content type, routing
the payload through the dedicated HEIC decoder with the conversion flag
true. -/
theorem claim_C9_convert_canonical
    (pdfDec heicDec genDec : List Nat → Except String (List Nat))
    (data : List Nat) (mimeType : String) :
    (isHEICFormat data = false →
      convertToPNG pdfDec heicDec genDec data "image/png" = .ok (data, false)) ∧
    (isHEICFormat data = true → mimeType ≠ "application/pdf" →
      convertToPNG pdfDec heicDec genDec data mimeType =
        (heicDec data).map (fun png => (png, true))) ∧
    (∀ out, prepareImageData pdfDec heicDec genDec data mimeType = .ok out →
      out.2.1 = "image/png") := by
  refine ⟨?_, ?_, ?_⟩
  · intro h
    have hmime : isHEICMimeType "image/png" = false := by decide
    simp [convertToPNG, h, hmime]
  · intro h hpdf
    simp [convertToPNG, hpdf, imageToPNG, h]
  · intro out hout
    unfold prepareImageData at hout
    rcases hconv : convertToPNG pdfDec heicDec genDec data (normMime mimeType)
      with e | pair
    · rw [hconv] at hout
      exact absurd hout (by simp)
    · rw [hconv] at hout
      obtain ⟨png, conv⟩ := pair
      simp only [Except.ok.injEq] at hout
      rw [← hout]

/-- C9 witness: a 12-byte "ftypheic" payload declared as image/jpeg goes
through the HEIC decoder, a non-HEIC payload declared image/png passes
through untouched, and preparing the latter under a sloppily-declared
" IMAGE/PNG " reports the canonical type image/png. -/
theorem claim_C9_convert_canonical_witness :
    convertToPNG (fun d => .ok d) (fun d => .ok (0 :: d)) (fun d => .ok d)
        [0, 0, 0, 24, 102, 116, 121, 112, 104, 101, 105, 99] "image/jpeg" =
      .ok (0 :: [0, 0, 0, 24, 102, 116, 121, 112, 104, 101, 105, 99], true) ∧
    convertToPNG (fun d => .ok d) (fun d => .ok (0 :: d)) (fun d => .ok d)
        [137, 80, 78, 71] "image/png" = .ok ([137, 80, 78, 71], false) ∧
    (([137, 80, 78, 71], "image/png", false) :
        List Nat × String × Bool).2.1 = "image/png" ∧
    prepareImageData (fun d => .ok d) (fun d => .ok (0 :: d)) (fun d => .ok d)
        [137, 80, 78, 71] " IMAGE/PNG " =
      .ok ([137, 80, 78, 71], "image/png", false) := by
  refine ⟨?_, ?_, ?_, ?_⟩
  · rw [(claim_C9_convert_canonical _ _ _ _ "image/jpeg").2.1 (by decide) (by decide)]
    rfl
  · rw [(claim_C9_convert_canonical _ _ _ [137, 80, 78, 71] "x").1 (by decide)]
  · exact (claim_C9_convert_canonical (fun d => .ok d) (fun d => .ok (0 :: d))
      (fun d => .ok d) [137, 80, 78, 71] " IMAGE/PNG ").2.2
      ([137, 80, 78, 71], "image/png", false) rfl
  · rfl

/-! ## C1: Process persists the Receipt record

The spec (and the repository's own unit tests, which exercise a
ScanReceipt/CreateReceipt split and assert "should NOT save the receipt to
the database yet") require the receipt produced by `Process` to stay an
unpersisted draft until a separate finalizing call.  The code in
service.go line 152 calls `db.SaveReceipt` inside `ProcessReceipt` itself,
and no `Finalize` exists, so a `Get` on the record store immediately after
a successful `Process` finds the record instead of returning not-found. -/

/-- Receipt value produced by `processReceipt` for the sample input used in
the repository's tests (id "test-id-123", time 7, scanner returning
"Test Receipt" / 2024-01-15 / 25.99). -/
def c1Receipt : Receipt :=
  { id := "test-id-123", title := "Test Receipt", date := 20240115,
    amount := amountToMinorUnits ((2599 : Rat) / 100),
    filename := "test-id-123_receipt.jpg", contentType := "image/jpeg",
    reimbursementID := "", createdAt := 7, updatedAt := 7 }

/-- C1 refutation evidence: on the concrete sample input, `processReceipt`
succeeds and the record store immediately afterwards returns the saved
Receipt — not a not-found condition — because `ProcessReceipt` itself
writes the record. -/
theorem claim_C1_process_persists_record :
    (processReceipt emptyDB emptyStorage sampleScanner "test-id-123" 7
        "receipt.jpg" [1, 2, 3] "image/jpeg").1 = .ok c1Receipt ∧
    ((processReceipt emptyDB emptyStorage sampleScanner "test-id-123" 7
        "receipt.jpg" [1, 2, 3] "image/jpeg").2.1).getReceipt "test-id-123" =
      .ok c1Receipt := by
  constructor <;> rfl

/-! ## C5: compensating blob delete on extraction failure -/

/-- C5: whenever extraction fails during `processReceipt` (after a
successful blob save), the call returns exactly the wrapped extraction
error — regardless of whether the compensating blob delete succeeds, since
its result is discarded — the record store is untouched, and when the
compensating delete does succeed and the store keys are distinct, the blob
store holds no entry under the key generated for this invocation. -/
theorem claim_C5_compensating_delete (db : DBState) (st : StorageState)
    (scan : Scanner) (genId : String) (now : Nat) (filename : String)
    (data : List Nat) (contentType : String) (e : String)
    (hsave : st.saveFails = false) (hscan : scan data contentType = .error e)
    (hnd : (st.files.map Prod.fst).Nodup) :
    (processReceipt db st scan genId now filename data contentType).1 =
      .error (.scanning e) ∧
    (processReceipt db st scan genId now filename data contentType).2.1 = db ∧
    (st.deleteFails = false →
      lookupA (processReceipt db st scan genId now filename data contentType).2.2.files
        (genId ++ "_" ++ sanitizeFilename filename) = none) := by
  unfold processReceipt
  simp only [StorageState.save, hsave, Bool.false_eq_true, if_false, hscan]
  refine ⟨by trivial, by trivial, fun hdel => ?_⟩
  simp only [StorageState.delete, hdel, Bool.false_eq_true, if_false]
  exact lookupA_eraseA_self _ _
    (nodup_keys_insertA _ _ _ hnd)

/-- C5 witness: with the always-failing extractor on the empty stores, the
call reports the scan error, writes no record, and leaves no blob under the
generated key. -/
theorem claim_C5_compensating_delete_witness :
    (processReceipt emptyDB emptyStorage failingScanner "test-id-123" 7
        "receipt.jpg" [1, 2, 3] "image/jpeg").1 = .error (.scanning "scan error") ∧
    (processReceipt emptyDB emptyStorage failingScanner "test-id-123" 7
        "receipt.jpg" [1, 2, 3] "image/jpeg").2.1 = emptyDB ∧
    lookupA (processReceipt emptyDB emptyStorage failingScanner "test-id-123" 7
        "receipt.jpg" [1, 2, 3] "image/jpeg").2.2.files
      ("test-id-123" ++ "_" ++ sanitizeFilename "receipt.jpg") = none := by
  obtain ⟨h1, h2, h3⟩ := claim_C5_compensating_delete emptyDB emptyStorage
    failingScanner "test-id-123" 7 "receipt.jpg" [1, 2, 3] "image/jpeg"
    "scan error" rfl rfl (by simp [emptyStorage])
  exact ⟨h1, h2, h3 rfl⟩

/-! ## C7: delete semantics -/

/-- C7: `deleteReceipt` first reads the record and propagates its failure
(untouched states); when the record exists, a blob-delete failure is
swallowed and the record deletion still happens; and a record-delete
failure is propagated after the blob-delete attempt. -/
theorem claim_C7_delete_semantics (db : DBState) (st : StorageState) (id : String) :
    (∀ e, db.getReceipt id = .error e →
      deleteReceipt db st id = (.error (.gettingForDeletion e), db, st)) ∧
    (∀ r, db.getReceipt id = .ok r → st.deleteFails = true →
      db.deleteReceiptFails = false →
      deleteReceipt db st id =
        (.ok (), { db with receipts := eraseA id db.receipts }, st)) ∧
    (∀ r, db.getReceipt id = .ok r → db.deleteReceiptFails = true →
      (deleteReceipt db st id).1 = .error (.deletingFromDb (.backend "database error")) ∧
      (deleteReceipt db st id).2.1 = db) := by
  refine ⟨fun e he => ?_, fun r hr hblob hrec => ?_, fun r hr hrec => ?_⟩
  · simp [deleteReceipt, he]
  · simp [deleteReceipt, hr, StorageState.delete, hblob, DBState.deleteReceipt, hrec]
  · simp [deleteReceipt, hr, DBState.deleteReceipt, hrec]

/-- C7 witness: instantiations of the three branches at concrete stores —
a missing id propagates not-found, a failing blob delete is swallowed while
the record disappears, and a failing record delete is propagated. -/
theorem claim_C7_delete_semantics_witness :
    deleteReceipt emptyDB emptyStorage "A" =
      (.error (.gettingForDeletion (.notFound "A")), emptyDB, emptyStorage) ∧
    deleteReceipt
      { emptyDB with receipts := [("A", c1Receipt)] }
      { emptyStorage with deleteFails := true } "A" =
      (.ok (), { emptyDB with receipts := eraseA "A" [("A", c1Receipt)] },
        { emptyStorage with deleteFails := true }) ∧
    (deleteReceipt
      { emptyDB with receipts := [("A", c1Receipt)], deleteReceiptFails := true }
      emptyStorage "A").1 = .error (.deletingFromDb (.backend "database error")) := by
  refine ⟨(claim_C7_delete_semantics emptyDB emptyStorage "A").1 _ rfl,
    (claim_C7_delete_semantics { emptyDB with receipts := [("A", c1Receipt)] }
      { emptyStorage with deleteFails := true } "A").2.1 c1Receipt rfl rfl rfl,
    ((claim_C7_delete_semantics
      { emptyDB with receipts := [("A", c1Receipt)], deleteReceiptFails := true }
      emptyStorage "A").2.2 c1Receipt rfl rfl).1⟩

/-! ## Reimbursement lemmas -/

/-- Specification-side total: the sum of the `amount` fields of the listed
receipts as read from a given store state, one summand per occurrence. -/
def sumAmounts (db : DBState) (ids : List String) : Int :=
  (ids.map fun rid =>
    match lookupA db.receipts rid with
    | some r => r.amount
    | none => 0).sum

/-- Validation-failure condition for one listed id: the receipt is missing
from the store, or it already carries a reimbursement back-reference. -/
def offendingAt (db : DBState) (id : String) : Bool :=
  match lookupA db.receipts id with
  | none => true
  | some r => r.reimbursementID ≠ ""

/-- The exact error `CreateReimbursement` raises for an offending id: the
wrapped not-found error when the receipt is missing, and the
already-reimbursed error when its back-reference is set. -/
def offendErr (db : DBState) (id : String) : SvcError :=
  match lookupA db.receipts id with
  | none => .gettingReceipt id (.notFound id)
  | some _ => .alreadyReimbursed id

theorem offendErr_namedId (db : DBState) (id : String) :
    (offendErr db id).namedId = some id := by
  unfold offendErr
  cases lookupA db.receipts id <;> rfl

theorem validateAndTotal_ok (db : DBState) :
    ∀ ids : List String, db.getReceiptFails = false →
    (∀ id ∈ ids, ∃ r, lookupA db.receipts id = some r ∧ r.reimbursementID = "") →
    validateAndTotal db ids = .ok (sumAmounts db ids) := by
  intro ids
  induction ids with
  | nil => intro _ _; rfl
  | cons id rest ih =>
    intro hgf hok
    obtain ⟨r, hr, hrid⟩ := hok id (List.mem_cons_self id rest)
    have hget : db.getReceipt id = .ok r := by
      simp [DBState.getReceipt, hgf, hr]
    have hrest := ih hgf (fun x hx => hok x (List.mem_cons_of_mem id hx))
    simp [validateAndTotal, hget, hrid, hrest, sumAmounts, hr]

theorem validateAndTotal_err (db : DBState) :
    ∀ ids : List String, db.getReceiptFails = false →
    (∃ id ∈ ids, offendingAt db id = true) →
    ∃ id ∈ ids, offendingAt db id = true ∧
      validateAndTotal db ids = .error (offendErr db id) := by
  intro ids
  induction ids with
  | nil => intro _ h; exact absurd h (by simp)
  | cons id rest ih =>
    intro hgf hbad
    cases hl : lookupA db.receipts id with
    | none =>
      have hget : db.getReceipt id = .error (.notFound id) := by
        simp [DBState.getReceipt, hgf, hl]
      refine ⟨id, List.mem_cons_self id rest, ?_, ?_⟩
      · simp [offendingAt, hl]
      · simp [validateAndTotal, hget, offendErr, hl]
    | some r =>
      have hget : db.getReceipt id = .ok r := by
        simp [DBState.getReceipt, hgf, hl]
      by_cases hrid : r.reimbursementID = ""
      · have hoffid : offendingAt db id = false := by
          simp [offendingAt, hl, hrid]
        obtain ⟨x, hx, hoff⟩ := hbad
        have hxrest : x ∈ rest := by
          rcases List.mem_cons.mp hx with h | h
          · subst h; rw [hoffid] at hoff; exact absurd hoff (by simp)
          · exact h
        obtain ⟨y, hy, hoffy, herr⟩ := ih hgf ⟨x, hxrest, hoff⟩
        refine ⟨y, List.mem_cons_of_mem id hy, hoffy, ?_⟩
        simp [validateAndTotal, hget, hrid, herr]
      · refine ⟨id, List.mem_cons_self id rest, ?_, ?_⟩
        · simp [offendingAt, hl, hrid]
        · simp [validateAndTotal, hget, hrid, offendErr, hl]


/-- Receipt value written back by the second pass for a read value `r`. -/
def tagged (rid : String) (now : Nat) (r : Receipt) : Receipt :=
  { r with reimbursementID := rid, updatedAt := now }

theorem tagReceipts_ok (rid : String) (now : Nat) :
    ∀ (ids : List String) (db : DBState),
    db.getReceiptFails = false →
    (∀ id ∈ ids, ∃ r, lookupA db.receipts id = some r ∧ r.id = id) →
    (∀ id ∈ ids, id ∉ db.saveReceiptFails) →
    ∃ db', tagReceipts rid now db ids = (.ok (), db') ∧
      (∀ id ∈ ids, ∃ r, lookupA db'.receipts id = some r ∧ r.id = id ∧
        r.reimbursementID = rid ∧ r.updatedAt = now) ∧
      (∀ x, x ∉ ids → lookupA db'.receipts x = lookupA db.receipts x) ∧
      db'.reimbursements = db.reimbursements := by
  intro ids
  induction ids with
  | nil =>
    intro db _ _ _
    exact ⟨db, rfl, by simp, fun x _ => rfl, rfl⟩
  | cons id rest ih =>
    intro db hgf hpres hsv
    obtain ⟨r, hr, hrid⟩ := hpres id (List.mem_cons_self id rest)
    have hget : db.getReceipt id = .ok r := by
      simp [DBState.getReceipt, hgf, hr]
    have hsid : id ∉ db.saveReceiptFails := hsv id (List.mem_cons_self id rest)
    have hr'id : (tagged rid now r).id = id := by simp [tagged, hrid]
    have hsave : db.saveReceipt (tagged rid now r) =
        .ok { db with receipts := insertA id (tagged rid now r) db.receipts } := by
      simp [DBState.saveReceipt, hr'id, hsid]
    have hstep : tagReceipts rid now db (id :: rest) =
        tagReceipts rid now { db with receipts := insertA id (tagged rid now r) db.receipts }
          rest := by
      simp only [tagReceipts, hget]
      rw [show ({ r with reimbursementID := rid, updatedAt := now } : Receipt) =
        tagged rid now r from rfl, hsave]
    have hpres1 : ∀ x ∈ rest,
        ∃ s, lookupA (insertA id (tagged rid now r) db.receipts) x = some s ∧ s.id = x := by
      intro x hx
      by_cases hxid : x = id
      · subst hxid
        exact ⟨tagged rid now r, lookupA_insertA_self _ _ _, hr'id⟩
      · obtain ⟨s, hs, hsid'⟩ := hpres x (List.mem_cons_of_mem id hx)
        refine ⟨s, ?_, hsid'⟩
        rw [lookupA_insertA_ne id x _ _ (fun h => hxid h.symm)]
        exact hs
    obtain ⟨db', htag, htagged, hunch, hreimb⟩ :=
      ih { db with receipts := insertA id (tagged rid now r) db.receipts } hgf hpres1
        (fun x hx => hsv x (List.mem_cons_of_mem id hx))
    refine ⟨db', hstep.trans htag, ?_, ?_, hreimb⟩
    · intro x hx
      rcases List.mem_cons.mp hx with hxid | hxrest
    
      · subst hxid
        by_cases hxr : x ∈ rest
        · exact htagged x hxr
        · refine ⟨tagged rid now r, ?_, hr'id, by simp [tagged], by simp [tagged]⟩
          rw [hunch x hxr]
          exact lookupA_insertA_self _ _ _
      · exact htagged x hxrest
    · intro x hx
      have hxid : x ≠ id := fun h => hx (h ▸ List.mem_cons_self id rest)
      have hxr : x ∉ rest := fun h => hx (List.mem_cons_of_mem id h)
      rw [hunch x hxr]
      exact lookupA_insertA_ne id x _ _ (fun h => hxid h.symm)

theorem tagReceipts_partial (rid : String) (now : Nat) (bad : String) (post : List String) :
    ∀ (pre : List String) (db : DBState),
    db.getReceiptFails = false →
    (∀ id ∈ pre, ∃ r, lookupA db.receipts id = some r ∧ r.id = id) →
    (∀ id ∈ pre, id ∉ db.saveReceiptFails) →
    (∃ r, lookupA db.receipts bad = some r ∧ r.id = bad) →
    bad ∈ db.saveReceiptFails →
    bad ∉ pre → pre.Nodup →
    ∃ db', tagReceipts rid now db (pre ++ bad :: post) =
        (.error (.updatingReceipt bad (.backend "database error")), db') ∧
      (∀ id ∈ pre, ∃ r, lookupA db'.receipts id = some r ∧ r.id = id ∧
        r.reimbursementID = rid ∧ r.updatedAt = now) ∧
      (∀ x, x ∉ pre → lookupA db'.receipts x = lookupA db.receipts x) ∧
      db'.reimbursements = db.reimbursements := by
  intro pre
  induction pre with
  | nil =>
    intro db hgf _ _ hbadp hbadf _ _
    obtain ⟨r, hr, hrid⟩ := hbadp
    have hget : db.getReceipt bad = .ok r := by
      simp [DBState.getReceipt, hgf, hr]
    have hr'id : (tagged rid now r).id = bad := by simp [tagged, hrid]
    have hsave : db.saveReceipt (tagged rid now r) = .error (.backend "database error") := by
      simp [DBState.saveReceipt, hr'id, hbadf]
    refine ⟨db, ?_, by simp, fun x _ => rfl, rfl⟩
    simp only [List.nil_append, tagReceipts, hget]
    rw [show ({ r with reimbursementID := rid, updatedAt := now } : Receipt) =
      tagged rid now r from rfl, hsave]
  | cons p pre' ih =>
    intro db hgf hpres hsv hbadp hbadf hbadpre hnd
    obtain ⟨r, hr, hrid⟩ := hpres p (List.mem_cons_self p pre')
    have hget : db.getReceipt p = .ok r := by
      simp [DBState.getReceipt, hgf, hr]
    have hsid : p ∉ db.saveReceiptFails := hsv p (List.mem_cons_self p pre')
    have hr'id : (tagged rid now r).id = p := by simp [tagged, hrid]
    have hsave : db.saveReceipt (tagged rid now r) =
        .ok { db with receipts := insertA p (tagged rid now r) db.receipts } := by
      simp [DBState.saveReceipt, hr'id, hsid]
    have hstep : tagReceipts rid now db ((p :: pre') ++ bad :: post) =
        tagReceipts rid now { db with receipts := insertA p (tagged rid now r) db.receipts }
          (pre' ++ bad :: post) := by
      simp only [List.cons_append, tagReceipts, hget]
      rw [show ({ r with reimbursementID := rid, updatedAt := now } : Receipt) =
        tagged rid now r from rfl, hsave]
      rfl
    have hppre' : p ∉ pre' := (List.nodup_cons.mp hnd).1
    have hbadp' : bad ≠ p := fun h => hbadpre (h ▸ List.mem_cons_self p pre')
    have hpres1 : ∀ x ∈ pre',
        ∃ s, lookupA (insertA p (tagged rid now r) db.receipts) x = some s ∧ s.id = x := by
      intro x hx
      obtain ⟨s, hs, hsid'⟩ := hpres x (List.mem_cons_of_mem p hx)
      have hxp : x ≠ p := fun h => hppre' (h ▸ hx)
      refine ⟨s, ?_, hsid'⟩
      rw [lookupA_insertA_ne p x _ _ (fun h => hxp h.symm)]
      exact hs
    have hbadp1 : ∃ s, lookupA (insertA p (tagged rid now r) db.receipts) bad = some s ∧
        s.id = bad := by
      obtain ⟨s, hs, hsid'⟩ := hbadp
      refine ⟨s, ?_, hsid'⟩
      rw [lookupA_insertA_ne p bad _ _ (fun h => hbadp' h.symm)]
      exact hs
    obtain ⟨db', htag, htagged, hunch, hreimb⟩ :=
      ih { db with receipts := insertA p (tagged rid now r) db.receipts } hgf hpres1
        (fun x hx => hsv x (List.mem_cons_of_mem p hx)) hbadp1 hbadf
        (fun h => hbadpre (List.mem_cons_of_mem p h)) (List.nodup_cons.mp hnd).2
    refine ⟨db', hstep.trans htag, ?_, ?_, hreimb⟩
    · intro x hx
      rcases List.mem_cons.mp hx with hxp | hxpre'
      · subst hxp
        refine ⟨tagged rid now r, ?_, hr'id, by simp [tagged], by simp [tagged]⟩
        rw [hunch x hppre']
        exact lookupA_insertA_self _ _ _
      · exact htagged x hxpre'
    · intro x hx
      have hxp : x ≠ p := fun h => hx (h ▸ List.mem_cons_self p pre')
      have hxpre' : x ∉ pre' := fun h => hx (List.mem_cons_of_mem p h)
      rw [hunch x hxpre']
      exact lookupA_insertA_ne p x _ _ (fun h => hxp h.symm)

theorem createReimbursement_ok (db : DBState) (genId : String) (now : Nat)
    (ids : List String)
    (hne : ids ≠ [])
    (hgf : db.getReceiptFails = false)
    (hok : ∀ id ∈ ids, ∃ r, lookupA db.receipts id = some r ∧ r.id = id ∧
      r.reimbursementID = "")
    (hsr : db.saveReimbFails = false)
    (hsv : ∀ id ∈ ids, id ∉ db.saveReceiptFails) :
    ∃ db', createReimbursement db genId now ids =
        (.ok { id := genId, receiptIDs := ids, totalAmount := sumAmounts db ids,
               createdAt := now, updatedAt := now }, db') ∧
      (∀ id ∈ ids, ∃ r, lookupA db'.receipts id = some r ∧
        r.reimbursementID = genId ∧ r.updatedAt = now) ∧
      lookupA db'.reimbursements genId =
        some { id := genId, receiptIDs := ids, totalAmount := sumAmounts db ids,
               createdAt := now, updatedAt := now } := by
  have hval : validateAndTotal db ids = .ok (sumAmounts db ids) :=
    validateAndTotal_ok db ids hgf
      (fun id hid => (hok id hid).elim fun r hr => ⟨r, hr.1, hr.2.2⟩)
  have hemp : ids.isEmpty = false := by
    cases ids with
    | nil => exact absurd rfl hne
    | cons a l => rfl
  set reimb : Reimbursement :=
    { id := genId, receiptIDs := ids, totalAmount := sumAmounts db ids,
      createdAt := now, updatedAt := now } with hreimbdef
  have hsave : db.saveReimbursement reimb =
      .ok { db with reimbursements := insertA genId reimb db.reimbursements } := by
    simp [DBState.saveReimbursement, hsr, hreimbdef]
  obtain ⟨db', htag, htagged, _, hreimbs⟩ :=
    tagReceipts_ok genId now ids
      { db with reimbursements := insertA genId reimb db.reimbursements } hgf
      (fun id hid => (hok id hid).elim fun r hr => ⟨r, hr.1, hr.2.1⟩) hsv
  refine ⟨db', ?_, ?_, ?_⟩
  · simp only [createReimbursement, hemp, Bool.false_eq_true, if_false, hval, hsave, htag]
  · intro id hid
    obtain ⟨r, hr, _, hrid, hupd⟩ := htagged id hid
    exact ⟨r, hr, hrid, hupd⟩
  · rw [hreimbs]
    exact lookupA_insertA_self _ _ _

/-! ## Fixtures for the reimbursement claims -/

/-- Unreimbursed receipt fixture with a given id and amount. -/
def rcpt (id : String) (amount : Int) : Receipt :=
  { id := id, title := id, date := 0, amount := amount, filename := "f" ++ id,
    contentType := "image/jpeg", reimbursementID := "", createdAt := 0, updatedAt := 0 }

/-- Store holding the two receipts of the spec's total-invariant example:
A with 1000 cents and B with 2599 cents. -/
def dbAB : DBState :=
  { emptyDB with receipts := [("A", rcpt "A" 1000), ("B", rcpt "B" 2599)] }

/-- Store holding the single unreimbursed receipt A. -/
def dbA : DBState := { emptyDB with receipts := [("A", rcpt "A" 1000)] }

/-- State after a first successful `Create(["A"])` on `dbA`. -/
def c3DB1 : DBState := (createReimbursement dbA "R1" 5 ["A"]).2

/-! ## C2: reimbursement total and back-references -/

/-- C2: whenever `createReimbursement` succeeds, the created batch's
totalAmount is the sum of the member receipts' amounts as read at creation
time (one summand per listed occurrence), and afterwards every member
receipt's reimbursementID equals the new batch's id. -/
theorem claim_C2_reimbursement_total (db : DBState) (genId : String) (now : Nat)
    (ids : List String)
    (hne : ids ≠ [])
    (hgf : db.getReceiptFails = false)
    (hok : ∀ id ∈ ids, ∃ r, lookupA db.receipts id = some r ∧ r.id = id ∧
      r.reimbursementID = "")
    (hsr : db.saveReimbFails = false)
    (hsv : ∀ id ∈ ids, id ∉ db.saveReceiptFails) :
    ∃ reimb db', createReimbursement db genId now ids = (.ok reimb, db') ∧
      reimb.totalAmount = sumAmounts db ids ∧
      ∀ id ∈ ids, ∃ r, lookupA db'.receipts id = some r ∧
        r.reimbursementID = reimb.id := by
  obtain ⟨db', hcreate, htagged, _⟩ :=
    createReimbursement_ok db genId now ids hne hgf hok hsr hsv
  refine ⟨_, db', hcreate, rfl, ?_⟩
  intro id hid
  obtain ⟨r, hr, hrid, _⟩ := htagged id hid
  exact ⟨r, hr, hrid⟩

/-- C2 witness: the spec's example — receipts A: 1000 and B: 2599 give a
batch with totalAmount 3599 and both receipts pointing back at it. -/
theorem claim_C2_reimbursement_total_witness :
    ∃ reimb db', createReimbursement dbAB "R1" 9 ["A", "B"] = (.ok reimb, db') ∧
      reimb.totalAmount = 3599 ∧
      ∀ id ∈ (["A", "B"] : List String), ∃ r, lookupA db'.receipts id = some r ∧
        r.reimbursementID = reimb.id := by
  obtain ⟨reimb, db', h1, h2, h3⟩ :=
    claim_C2_reimbursement_total dbAB "R1" 9 ["A", "B"] (by decide) rfl
      (by
        intro id hid
        rcases List.mem_cons.mp hid with h | h
        · subst h; exact ⟨rcpt "A" 1000, rfl, rfl, rfl⟩
        · rcases List.mem_cons.mp h with h' | h'
          · subst h'; exact ⟨rcpt "B" 2599, rfl, rfl, rfl⟩
          · exact absurd h' (by simp))
      rfl (by simp [dbAB, emptyDB])
  exact ⟨reimb, db', h1, h2.trans (by decide), h3⟩

/-! ## C3: validation-first rejection -/

/-- C3: when any listed receipt is missing or already reimbursed,
`createReimbursement` fails with the exact error for such a listed id —
the wrapped not-found error for a missing receipt, the already-reimbursed
error for a tagged one, either naming that id — and leaves the store
exactly as it was: no Reimbursement record is written and no receipt is
mutated.  In particular a second `Create([A])` after A was reimbursed by
the first call fails with the already-reimbursed error and mutates
nothing. -/
theorem claim_C3_validation_first (db : DBState) (genId : String) (now : Nat)
    (ids : List String)
    (hgf : db.getReceiptFails = false)
    (hbad : ∃ id ∈ ids, offendingAt db id = true) :
    ∃ id ∈ ids, offendingAt db id = true ∧
      createReimbursement db genId now ids = (.error (offendErr db id), db) ∧
      (offendErr db id).namedId = some id := by
  obtain ⟨id, hid, hoff, herr⟩ := validateAndTotal_err db ids hgf hbad
  have hemp : ids.isEmpty = false := by
    cases ids with
    | nil => exact absurd hid (by simp)
    | cons a l => rfl
  refine ⟨id, hid, hoff, ?_, offendErr_namedId db id⟩
  simp [createReimbursement, hemp, herr]

/-- C3 witness: after a first `Create(["A"])` on a store holding the
unreimbursed receipt A, a second call fails with the already-reimbursed
error naming A specifically, and changes nothing. -/
theorem claim_C3_validation_first_witness :
    offendingAt c3DB1 "A" = true ∧
    createReimbursement c3DB1 "R2" 6 ["A"] =
      (.error (.alreadyReimbursed "A"), c3DB1) := by
  obtain ⟨id, hid, hoff, herr, _⟩ :=
    claim_C3_validation_first c3DB1 "R2" 6 ["A"] (by decide)
      ⟨"A", by decide, by decide⟩
  have hida : id = "A" := by
    rcases List.mem_cons.mp hid with h | h
    · exact h
    · exact absurd h (by simp)
  subst hida
  rw [show offendErr c3DB1 "A" = .alreadyReimbursed "A" from by decide] at herr
  exact ⟨hoff, herr⟩

/-! ## C10: duplicate ids in one call -/

/-- C10: a duplicated id whose receipt exists unreimbursed does not make
`createReimbursement` fail — validation performs no mutation, so every
occurrence still sees the empty back-reference — the amount is added once
per occurrence into totalAmount, and the duplicate is stored verbatim in
the batch's receiptIDs list. -/
theorem claim_C10_duplicates_allowed (db : DBState) (genId : String) (now : Nat)
    (ids : List String) (rid : String)
    (hdup : 2 ≤ ids.count rid)
    (hgf : db.getReceiptFails = false)
    (hok : ∀ id ∈ ids, ∃ r, lookupA db.receipts id = some r ∧ r.id = id ∧
      r.reimbursementID = "")
    (hsr : db.saveReimbFails = false)
    (hsv : ∀ id ∈ ids, id ∉ db.saveReceiptFails) :
    ∃ reimb db', createReimbursement db genId now ids = (.ok reimb, db') ∧
      reimb.receiptIDs = ids ∧
      reimb.receiptIDs.count rid = ids.count rid ∧
      reimb.totalAmount = sumAmounts db ids ∧
      ∃ r, lookupA db'.receipts rid = some r ∧ r.reimbursementID = genId := by
  have hmem : rid ∈ ids := by
    by_contra hno
    rw [List.count_eq_zero_of_not_mem hno] at hdup
    omega
  obtain ⟨db', hcreate, htagged, _⟩ :=
    createReimbursement_ok db genId now ids (List.ne_nil_of_mem hmem) hgf hok hsr hsv
  obtain ⟨r, hr, hrid, _⟩ := htagged rid hmem
  exact ⟨_, db', hcreate, rfl, rfl, rfl, r, hr, hrid⟩

/-- C10 witness: `Create(["A", "A"])` on a store where A holds 1000 cents
succeeds with receiptIDs ["A", "A"] and totalAmount 2000. -/
theorem claim_C10_duplicates_allowed_witness :
    ∃ reimb db', createReimbursement dbA "R1" 9 ["A", "A"] = (.ok reimb, db') ∧
      reimb.receiptIDs = ["A", "A"] ∧
      reimb.totalAmount = 2000 ∧
      ∃ r, lookupA db'.receipts "A" = some r ∧ r.reimbursementID = "R1" := by
  obtain ⟨reimb, db', h1, h2, _, h4, h5⟩ :=
    claim_C10_duplicates_allowed dbA "R1" 9 ["A", "A"] "A" (by decide) rfl
      (by
        intro id hid
        rcases List.mem_cons.mp hid with h | h
        · subst h; exact ⟨rcpt "A" 1000, rfl, rfl, rfl⟩
        · rcases List.mem_cons.mp h with h' | h'
          · subst h'; exact ⟨rcpt "A" 1000, rfl, rfl, rfl⟩
          · exact absurd h' (by simp))
      rfl (by simp [dbA, emptyDB])
  exact ⟨reimb, db', h1, h2, h4.trans (by decide), h5⟩

/-! ## C6: second-pass write failure leaves partial state -/

/-- C6: when a write in the tagging pass fails, the error is returned at
once and nothing is rolled back — the Reimbursement record (listing all
requested ids) remains in the store, the receipts tagged before the failing
one keep their new back-reference, and the failing receipt and all later
ones are left exactly as they were. -/
theorem claim_C6_partial_failure (db : DBState) (genId : String) (now : Nat)
    (pre post : List String) (bad : String)
    (hnd : (pre ++ bad :: post).Nodup)
    (hgf : db.getReceiptFails = false)
    (hok : ∀ id ∈ pre ++ bad :: post, ∃ r, lookupA db.receipts id = some r ∧
      r.id = id ∧ r.reimbursementID = "")
    (hsr : db.saveReimbFails = false)
    (hpre : ∀ id ∈ pre, id ∉ db.saveReceiptFails)
    (hbad : bad ∈ db.saveReceiptFails) :
    ∃ db',
      createReimbursement db genId now (pre ++ bad :: post) =
        (.error (.updatingReceipt bad (.backend "database error")), db') ∧
      lookupA db'.reimbursements genId =
        some { id := genId, receiptIDs := pre ++ bad :: post,
               totalAmount := sumAmounts db (pre ++ bad :: post),
               createdAt := now, updatedAt := now } ∧
      (∀ id ∈ pre, ∃ r, lookupA db'.receipts id = some r ∧
        r.reimbursementID = genId) ∧
      (∀ id ∈ bad :: post, lookupA db'.receipts id = lookupA db.receipts id) := by
  obtain ⟨hndpre, hndrest, hdisj⟩ := List.nodup_append.mp hnd
  have hbadpre : bad ∉ pre := fun h => hdisj h (List.mem_cons_self bad post)
  have hval : validateAndTotal db (pre ++ bad :: post) =
      .ok (sumAmounts db (pre ++ bad :: post)) :=
    validateAndTotal_ok db _ hgf
      (fun id hid => (hok id hid).elim fun r hr => ⟨r, hr.1, hr.2.2⟩)
  have hemp : (pre ++ bad :: post).isEmpty = false := by
    cases pre <;> rfl
  set reimb : Reimbursement :=
    { id := genId, receiptIDs := pre ++ bad :: post,
      totalAmount := sumAmounts db (pre ++ bad :: post),
      createdAt := now, updatedAt := now } with hreimbdef
  have hsave : db.saveReimbursement reimb =
      .ok { db with reimbursements := insertA genId reimb db.reimbursements } := by
    simp [DBState.saveReimbursement, hsr, hreimbdef]
  obtain ⟨db', htag, htagged, hunch, hreimbs⟩ :=
    tagReceipts_partial genId now bad post pre
      { db with reimbursements := insertA genId reimb db.reimbursements } hgf
      (fun id hid => (hok id (List.mem_append_left _ hid)).elim
        fun r hr => ⟨r, hr.1, hr.2.1⟩)
      hpre
      ((hok bad (List.mem_append_right _ (List.mem_cons_self bad post))).elim
        fun r hr => ⟨r, hr.1, hr.2.1⟩)
      hbad hbadpre hndpre
  refine ⟨db', ?_, ?_, ?_, ?_⟩
  · simp only [createReimbursement, hemp, Bool.false_eq_true, if_false, hval, hsave, htag]
  · rw [hreimbs]
    exact lookupA_insertA_self _ _ _
  · intro id hid
    obtain ⟨r, hr, _, hrid, _⟩ := htagged id hid
    exact ⟨r, hr, hrid⟩
  · intro id hid
    have hidpre : id ∉ pre := fun h => hdisj h hid
    exact hunch id hidpre

/-- C6 witness: with receipts A, B, C (B's write injected to fail),
`Create(["A", "B", "C"])` fails naming B, the batch record listing all
three ids with total 3606 is persisted, A is tagged, and B and C are
untouched. -/
theorem claim_C6_partial_failure_witness :
    ∃ db',
      createReimbursement
        { emptyDB with
          receipts := [("A", rcpt "A" 1000), ("B", rcpt "B" 2599), ("C", rcpt "C" 7)],
          saveReceiptFails := ["B"] } "R1" 9 (["A"] ++ "B" :: ["C"]) =
        (.error (.updatingReceipt "B" (.backend "database error")), db') ∧
      lookupA db'.reimbursements "R1" =
        some { id := "R1", receiptIDs := ["A"] ++ "B" :: ["C"], totalAmount := 3606,
               createdAt := 9, updatedAt := 9 } ∧
      (∀ id ∈ (["A"] : List String), ∃ r, lookupA db'.receipts id = some r ∧
        r.reimbursementID = "R1") ∧
      (∀ id ∈ ("B" :: ["C"] : List String),
        lookupA db'.receipts id =
          lookupA [("A", rcpt "A" 1000), ("B", rcpt "B" 2599), ("C", rcpt "C" 7)] id) := by
  obtain ⟨db', h1, h2, h3, h4⟩ :=
    claim_C6_partial_failure
      { emptyDB with
        receipts := [("A", rcpt "A" 1000), ("B", rcpt "B" 2599), ("C", rcpt "C" 7)],
        saveReceiptFails := ["B"] } "R1" 9 ["A"] ["C"] "B"
      (by decide) rfl
      (by
        intro id hid
        rcases List.mem_cons.mp hid with h | h
        · subst h; exact ⟨rcpt "A" 1000, rfl, rfl, rfl⟩
        · rcases List.mem_cons.mp h with h' | h'
          · subst h'; exact ⟨rcpt "B" 2599, rfl, rfl, rfl⟩
          · rcases List.mem_cons.mp h' with h'' | h''
            · subst h''; exact ⟨rcpt "C" 7, rfl, rfl, rfl⟩
            · exact absurd h'' (by simp))
      rfl (by decide) (by decide)
  refine ⟨db', h1, ?_, h3, h4⟩
  rw [h2]
  rfl

/-! ## C8: sanitizeFilename — counterexample and the amended idempotence

The 50-byte truncation can cut the cleaned base right after a kept space,
leaving a trailing space that the next application's TrimSpace removes, so
the function is not idempotent as claimed.  Idempotence does hold whenever
the cleaned-and-truncated base does not end in a space, and the other two
conjuncts (extension preservation and a never-empty base) hold
unconditionally. -/

/-- Base name of 49 letters, then a space, then one more letter: the
truncation to 50 characters ends exactly on the space. -/
def c8Bad : String := "aaaaaaaaaaaaaaaaaaaaaaaaaaaaaaaaaaaaaaaaaaaaaaaaa b"

/-- C8 counterexample: `sanitizeFilename` is not idempotent — truncating
the 51-character base leaves a trailing space that a second application
trims away. -/
theorem claim_C8_counterexample :
    sanitizeFilename (sanitizeFilename c8Bad) ≠ sanitizeFilename c8Bad := by
  decide

/-- Headedness test: the list is empty or starts with a non-whitespace
(in the sense trimmed by TrimSpace) character. -/
def headNotUniWs : List Char → Bool
  | [] => true
  | c :: _ => !isUniWs c

/-- Test that a following character exists and is non-`\s`. -/
def headNotWs : List Char → Bool
  | [] => true
  | c :: _ => !isGoWs c

/-- Collapsed-run invariant: every `\s`-class character is a plain space
and is never immediately followed by another `\s`-class character. -/
def collapsedForm : List Char → Bool
  | [] => true
  | c :: cs =>
    if isGoWs c then (c = ' ') && headNotWs cs && collapsedForm cs
    else collapsedForm cs

theorem collapsedForm_tail {c : Char} {cs : List Char}
    (h : collapsedForm (c :: cs) = true) : collapsedForm cs = true := by
  by_cases hc : isGoWs c = true
  · simp [collapsedForm, hc] at h
    exact h.2
  · simp only [Bool.not_eq_true] at hc
    simpa [collapsedForm, hc] using h

theorem mem_space_of_collapsedForm {cs : List Char}
    (h : collapsedForm cs = true) {c : Char} (hm : c ∈ cs)
    (hws : isGoWs c = true) : c = ' ' := by
  induction cs with
  | nil => exact absurd hm (by simp)
  | cons d ds ih =>
    rcases List.mem_cons.mp hm with hd | hd
    · subst hd
      simp [collapsedForm, hws] at h
      exact h.1.1
    · exact ih (collapsedForm_tail h) hd

theorem headNotWs_collapseAux_true (cs : List Char) :
    headNotWs (collapseAux true cs) = true := by
  induction cs with
  | nil => rfl
  | cons c cs ih =>
    by_cases hc : isGoWs c = true
    · simpa [collapseAux, hc] using ih
    · simp only [Bool.not_eq_true] at hc
      simp [collapseAux, hc, headNotWs]

theorem collapsedForm_collapseAux (cs : List Char) :
    ∀ b, collapsedForm (collapseAux b cs) = true := by
  induction cs with
  | nil => intro b; rfl
  | cons c cs ih =>
    intro b
    by_cases hc : isGoWs c = true
    · cases b with
      | true => simpa [collapseAux, hc] using ih true
      | false =>
        simp only [collapseAux, hc, if_true, Bool.false_eq_true, if_false]
        simp [collapsedForm, headNotWs_collapseAux_true, ih true]
    · simp only [Bool.not_eq_true] at hc
      simp [collapseAux, hc, collapsedForm, ih false]

theorem collapseAux_true_eq_false {cs : List Char} (h : headNotWs cs = true) :
    collapseAux true cs = collapseAux false cs := by
  cases cs with
  | nil => rfl
  | cons c cs =>
    have hc : isGoWs c = false := by
      simpa [headNotWs] using h
    simp [collapseAux, hc]

theorem collapseAux_eq_self {cs : List Char} (h : collapsedForm cs = true) :
    collapseAux false cs = cs := by
  induction cs with
  | nil => rfl
  | cons c cs ih =>
    by_cases hc : isGoWs c = true
    · simp only [collapsedForm, hc, if_true, Bool.and_eq_true, decide_eq_true_eq] at h
      obtain ⟨⟨hsp, hhd⟩, hform⟩ := h
      simp only [collapseAux, hc, if_true, Bool.false_eq_true, if_false]
      rw [collapseAux_true_eq_false hhd, ih hform, hsp]
    · simp only [Bool.not_eq_true] at hc
      simp only [collapsedForm, hc, Bool.false_eq_true, if_false] at h
      simp [collapseAux, hc, ih h]

theorem collapsedForm_dropWhile (p : Char → Bool) :
    ∀ cs : List Char, collapsedForm cs = true →
    collapsedForm (cs.dropWhile p) = true := by
  intro cs
  induction cs with
  | nil => intro _; rfl
  | cons c cs ih =>
    intro h
    by_cases hp : p c = true
    · rw [List.dropWhile_cons_of_pos hp]
      exact ih (collapsedForm_tail h)
    · rw [List.dropWhile_cons_of_neg (by simpa using hp)]
      exact h

theorem headNotWs_append_left {l₁ l₂ : List Char}
    (h : headNotWs (l₁ ++ l₂) = true) (hne : l₁ ≠ []) : headNotWs l₁ = true := by
  cases l₁ with
  | nil => exact absurd rfl hne
  | cons c cs => simpa [headNotWs] using h

theorem collapsedForm_append_left :
    ∀ l₁ l₂ : List Char, collapsedForm (l₁ ++ l₂) = true →
    collapsedForm l₁ = true := by
  intro l₁
  induction l₁ with
  | nil => intro _ _; rfl
  | cons c cs ih =>
    intro l₂ h
    by_cases hc : isGoWs c = true
    · simp only [List.cons_append, collapsedForm, hc, if_true, Bool.and_eq_true,
        decide_eq_true_eq] at h ⊢
      obtain ⟨⟨hsp, hhd⟩, hform⟩ := h
      refine ⟨⟨hsp, ?_⟩, ih l₂ hform⟩
      cases cs with
      | nil => rfl
      | cons d ds => simpa [headNotWs] using hhd
    · simp only [List.cons_append, collapsedForm, hc, Bool.false_eq_true, if_false] at h ⊢
      exact ih l₂ h

theorem collapsedForm_take :
    ∀ (cs : List Char) (n : Nat), collapsedForm cs = true →
    collapsedForm (cs.take n) = true := by
  intro cs
  induction cs with
  | nil => intro n _; simp [collapsedForm]
  | cons c cs ih =>
    intro n h
    cases n with
    | zero => rfl
    | succ m =>
      by_cases hc : isGoWs c = true
      · simp only [collapsedForm, hc, if_true, Bool.and_eq_true, decide_eq_true_eq] at h
        obtain ⟨⟨hsp, hhd⟩, hform⟩ := h
        simp only [List.take_succ_cons, collapsedForm, hc, if_true, Bool.and_eq_true,
          decide_eq_true_eq]
        refine ⟨⟨hsp, ?_⟩, ih m hform⟩
        cases cs with
        | nil => simp [headNotWs]
        | cons d ds =>
          cases m with
          | zero => rfl
          | succ k => simpa [headNotWs] using hhd
      · simp only [collapsedForm, hc, Bool.false_eq_true, if_false] at h
        simp only [List.take_succ_cons, collapsedForm, hc, Bool.false_eq_true, if_false]
        exact ih m h

theorem mem_collapseAux :
    ∀ (cs : List Char) (b : Bool) (c : Char), c ∈ collapseAux b cs →
    c = ' ' ∨ c ∈ cs := by
  intro cs
  induction cs with
  | nil => intro b c h; exact absurd h (by simp [collapseAux])
  | cons d ds ih =>
    intro b c h
    by_cases hd : isGoWs d = true
    · cases b with
      | true =>
        simp only [collapseAux, hd, if_true] at h
        rcases ih true c h with h' | h'
        · exact Or.inl h'
        · exact Or.inr (List.mem_cons_of_mem d h')
      | false =>
        simp only [collapseAux, hd, if_true, Bool.false_eq_true, if_false,
          List.mem_cons] at h
        rcases h with h' | h'
        · exact Or.inl h'
        · rcases ih true c h' with h'' | h''
          · exact Or.inl h''
          · exact Or.inr (List.mem_cons_of_mem d h'')
    · simp only [Bool.not_eq_true] at hd
      simp only [collapseAux, hd, Bool.false_eq_true, if_false, List.mem_cons] at h
      rcases h with h' | h'
      · exact Or.inr (h' ▸ List.mem_cons_self d ds)
      · rcases ih false c h' with h'' | h''
        · exact Or.inl h''
        · exact Or.inr (List.mem_cons_of_mem d h'')

theorem headNotUniWs_dropWhile (cs : List Char) :
    headNotUniWs (cs.dropWhile isUniWs) = true := by
  induction cs with
  | nil => rfl
  | cons c cs ih =>
    by_cases hc : isUniWs c = true
    · rw [List.dropWhile_cons_of_pos hc]
      exact ih
    · rw [List.dropWhile_cons_of_neg (by simpa using hc)]
      simpa [headNotUniWs] using hc

theorem trimRightWs_decomp (l : List Char) :
    ∃ t, l = trimRightWs l ++ t ∧ ∀ c ∈ t, isUniWs c = true := by
  refine ⟨(l.reverse.takeWhile isUniWs).reverse, ?_, ?_⟩
  · show l = (l.reverse.dropWhile isUniWs).reverse ++ (l.reverse.takeWhile isUniWs).reverse
    rw [← List.reverse_append, List.takeWhile_append_dropWhile, List.reverse_reverse]
  · intro c hc
    rw [List.mem_reverse] at hc
    exact List.mem_takeWhile_imp hc

theorem headNotUniWs_trimRightWs {l : List Char} (h : headNotUniWs l = true) :
    headNotUniWs (trimRightWs l) = true := by
  obtain ⟨t, hdecomp, _⟩ := trimRightWs_decomp l
  cases htr : trimRightWs l with
  | nil => rfl
  | cons c cs =>
    rw [htr] at hdecomp
    rw [hdecomp] at h
    simpa [headNotUniWs] using h

theorem lastNotUniWs_trimRightWs (l : List Char) :
    headNotUniWs (trimRightWs l).reverse = true := by
  unfold trimRightWs
  rw [List.reverse_reverse]
  exact headNotUniWs_dropWhile l.reverse

theorem headNotUniWs_take {l : List Char} (n : Nat) (h : headNotUniWs l = true) :
    headNotUniWs (l.take n) = true := by
  cases l with
  | nil => simp [headNotUniWs]
  | cons c cs =>
    cases n with
    | zero => rfl
    | succ m => simpa [headNotUniWs, List.take_succ_cons] using h

theorem trimLeftWs_eq_self {l : List Char} (h : headNotUniWs l = true) :
    trimLeftWs l = l := by
  cases l with
  | nil => rfl
  | cons c cs =>
    have hc : isUniWs c = false := by simpa [headNotUniWs] using h
    unfold trimLeftWs
    rw [List.dropWhile_cons_of_neg (by simp [hc])]

theorem trimRightWs_eq_self {l : List Char} (h : headNotUniWs l.reverse = true) :
    trimRightWs l = l := by
  unfold trimRightWs
  cases hrev : l.reverse with
  | nil =>
    have : l = [] := by simpa using congrArg List.reverse hrev
    simp [this]
  | cons c cs =>
    rw [hrev] at h
    have hc : isUniWs c = false := by simpa [headNotUniWs] using h
    rw [List.dropWhile_cons_of_neg (by simp [hc]), ← hrev, List.reverse_reverse]

theorem mem_trimLeftWs {c : Char} {l : List Char} (h : c ∈ trimLeftWs l) : c ∈ l :=
  (List.dropWhile_sublist isUniWs).subset h

theorem mem_trimRightWs {c : Char} {l : List Char} (h : c ∈ trimRightWs l) : c ∈ l := by
  obtain ⟨t, hdecomp, _⟩ := trimRightWs_decomp l
  rw [hdecomp]
  exact List.mem_append_left t h

theorem kept_not_extra {c : Char} (hk : isKeptChar c = true) (hg : isGoWs c = false) :
    isUniWs c = false := by
  have h11 : ¬c.toNat = 11 := by
    intro h
    have hc : c = Char.ofNat 11 := by rw [← Char.ofNat_toNat c, h]
    rw [hc] at hk
    exact absurd hk (by decide)
  have h133 : ¬c.toNat = 133 := by
    intro h
    have hc : c = Char.ofNat 133 := by rw [← Char.ofNat_toNat c, h]
    rw [hc] at hk
    exact absurd hk (by decide)
  have h160 : ¬c.toNat = 160 := by
    intro h
    have hc : c = Char.ofNat 160 := by rw [← Char.ofNat_toNat c, h]
    rw [hc] at hk
    exact absurd hk (by decide)
  simp [isUniWs, hg, h11, h133, h160]

theorem kept_ne_dot_slash {c : Char} (hk : isKeptChar c = true) :
    c ≠ '.' ∧ c ≠ '/' := by
  constructor
  · intro h; rw [h] at hk; exact absurd hk (by decide)
  · intro h; rw [h] at hk; exact absurd hk (by decide)

theorem allKept_cleanBase (cs : List Char) :
    ∀ c ∈ cleanBase cs, isKeptChar c = true := by
  intro c hc
  unfold cleanBase at hc
  by_cases hemp :
      ((goTrimSpace (collapseWs (stripDisallowed cs))).take 50).isEmpty = true
  · rw [if_pos hemp] at hc
    fin_cases hc <;> decide
  · rw [if_neg hemp] at hc
    have h1 : c ∈ goTrimSpace (collapseWs (stripDisallowed cs)) :=
      (List.take_sublist 50 _).subset hc
    have h2 : c ∈ trimLeftWs (collapseWs (stripDisallowed cs)) := mem_trimRightWs h1
    have h3 : c ∈ collapseWs (stripDisallowed cs) := mem_trimLeftWs h2
    rcases mem_collapseAux _ false c h3 with h4 | h4
    · rw [h4]; decide
    · exact List.of_mem_filter h4

theorem collapsedForm_cleanBase (cs : List Char) :
    collapsedForm (cleanBase cs) = true := by
  unfold cleanBase
  by_cases hemp :
      ((goTrimSpace (collapseWs (stripDisallowed cs))).take 50).isEmpty = true
  · rw [if_pos hemp]; decide
  · rw [if_neg hemp]
    apply collapsedForm_take
    unfold goTrimSpace
    obtain ⟨t, hdecomp, _⟩ := trimRightWs_decomp (trimLeftWs (collapseWs (stripDisallowed cs)))
    apply collapsedForm_append_left _ t
    rw [← hdecomp]
    exact collapsedForm_dropWhile isUniWs _ (collapsedForm_collapseAux _ false)

theorem headNotUniWs_cleanBase (cs : List Char) :
    headNotUniWs (cleanBase cs) = true := by
  unfold cleanBase
  by_cases hemp :
      ((goTrimSpace (collapseWs (stripDisallowed cs))).take 50).isEmpty = true
  · rw [if_pos hemp]; decide
  · rw [if_neg hemp]
    apply headNotUniWs_take
    exact headNotUniWs_trimRightWs (headNotUniWs_dropWhile _)

theorem length_cleanBase (cs : List Char) : (cleanBase cs).length ≤ 50 := by
  unfold cleanBase
  by_cases hemp :
      ((goTrimSpace (collapseWs (stripDisallowed cs))).take 50).isEmpty = true
  · rw [if_pos hemp]; decide
  · rw [if_neg hemp]
    exact List.length_take_le 50 _

theorem cleanBase_ne_nil (cs : List Char) : cleanBase cs ≠ [] := by
  unfold cleanBase
  by_cases hemp :
      ((goTrimSpace (collapseWs (stripDisallowed cs))).take 50).isEmpty = true
  · rw [if_pos hemp]; decide
  · rw [if_neg hemp]
    intro h
    rw [h] at hemp
    exact hemp rfl

theorem extOfAux_nil_of_no_dot :
    ∀ (l acc : List Char), (∀ c ∈ l, c ≠ '.') → extOfAux l acc = [] := by
  intro l
  induction l with
  | nil => intro acc _; rfl
  | cons c cs ih =>
    intro acc h
    have hc : c ≠ '.' := h c (List.mem_cons_self c cs)
    by_cases hs : c = '/'
    · simp [extOfAux, hc, hs]
    · simp only [extOfAux, if_neg hc, if_neg hs]
      exact ih _ (fun d hd => h d (List.mem_cons_of_mem c hd))

theorem extOfAux_to_dot :
    ∀ (w r acc : List Char), (∀ c ∈ w, c ≠ '.' ∧ c ≠ '/') →
    extOfAux (w ++ '.' :: r) acc = '.' :: (w.reverse ++ acc) := by
  intro w
  induction w with
  | nil => intro r acc _; simp [extOfAux]
  | cons c cs ih =>
    intro r acc h
    obtain ⟨hc, hs⟩ := h c (List.mem_cons_self c cs)
    simp only [List.cons_append, extOfAux, if_neg hc, if_neg hs, List.append_eq]
    rw [ih r (c :: acc) (fun d hd => h d (List.mem_cons_of_mem c hd))]
    simp

theorem extOfAux_shape :
    ∀ (l acc : List Char), (∀ c ∈ acc, c ≠ '.' ∧ c ≠ '/') →
    extOfAux l acc = [] ∨
      ∃ v, extOfAux l acc = '.' :: v ∧ ∀ c ∈ v, c ≠ '.' ∧ c ≠ '/' := by
  intro l
  induction l with
  | nil => intro acc _; exact Or.inl rfl
  | cons c cs ih =>
    intro acc hacc
    by_cases hc : c = '.'
    · subst hc
      exact Or.inr ⟨acc, by simp [extOfAux], hacc⟩
    · by_cases hs : c = '/'
      · subst hs
        simp [extOfAux, hc]
      · simp only [extOfAux, if_neg hc, if_neg hs]
        refine ih (c :: acc) ?_
        intro d hd
        rcases List.mem_cons.mp hd with h | h
        · exact h ▸ ⟨hc, hs⟩
        · exact hacc d h

theorem extOf_shape (cs : List Char) :
    extOf cs = [] ∨ ∃ v, extOf cs = '.' :: v ∧ ∀ c ∈ v, c ≠ '.' ∧ c ≠ '/' :=
  extOfAux_shape cs.reverse [] (by simp)

theorem extOf_nil_of_no_dot (cs : List Char) (h : ∀ c ∈ cs, c ≠ '.') :
    extOf cs = [] :=
  extOfAux_nil_of_no_dot cs.reverse [] (fun c hc => h c (List.mem_reverse.mp hc))

theorem extOf_append_dot (u v : List Char) (hv : ∀ c ∈ v, c ≠ '.' ∧ c ≠ '/') :
    extOf (u ++ '.' :: v) = '.' :: v := by
  unfold extOf
  rw [List.reverse_append, List.reverse_cons, List.append_assoc,
    List.singleton_append]
  rw [extOfAux_to_dot v.reverse u.reverse []
    (fun c hc => hv c (List.mem_reverse.mp hc))]
  rw [List.reverse_reverse, List.append_nil]

theorem baseOf_of_no_dot (cs : List Char) (h : ∀ c ∈ cs, c ≠ '.') :
    baseOf cs = cs := by
  unfold baseOf
  rw [extOf_nil_of_no_dot cs h]
  simp [List.take_length]

theorem baseOf_append_dot (u v : List Char) (hv : ∀ c ∈ v, c ≠ '.' ∧ c ≠ '/') :
    baseOf (u ++ '.' :: v) = u := by
  unfold baseOf
  rw [extOf_append_dot u v hv]
  have hlen : (u ++ '.' :: v).length - ('.' :: v).length = u.length := by
    simp [List.length_append]
  rw [hlen, List.take_left]

theorem lastNotUniWs_of_not_space {b : List Char}
    (hk : ∀ c ∈ b, isKeptChar c = true) (hcf : collapsedForm b = true)
    (h : b.getLast? ≠ some ' ') : headNotUniWs b.reverse = true := by
  cases hrev : b.reverse with
  | nil => rfl
  | cons c rest =>
    have hmem : c ∈ b := List.mem_reverse.mp (hrev ▸ List.mem_cons_self c rest)
    have hlastc : b.getLast? = some c := by
      rw [← List.head?_reverse, hrev]
      rfl
    have hgo : isGoWs c = false := by
      cases hgo' : isGoWs c with
      | false => rfl
      | true =>
        have : c = ' ' := mem_space_of_collapsedForm hcf hmem hgo'
        rw [this] at hlastc
        exact absurd hlastc h
    have := kept_not_extra (hk c hmem) hgo
    simpa [headNotUniWs] using this

theorem cleanBase_eq_self {b : List Char}
    (hk : ∀ c ∈ b, isKeptChar c = true)
    (hcf : collapsedForm b = true)
    (hhd : headNotUniWs b = true)
    (hlast : headNotUniWs b.reverse = true)
    (hlen : b.length ≤ 50)
    (hne : b ≠ []) :
    cleanBase b = b := by
  have h1 : stripDisallowed b = b := List.filter_eq_self.mpr hk
  have h2 : collapseWs b = b := collapseAux_eq_self hcf
  have h3 : trimLeftWs b = b := trimLeftWs_eq_self hhd
  have h4 : trimRightWs b = b := trimRightWs_eq_self hlast
  have h5 : b.take 50 = b := List.take_of_length_le hlen
  have hemp : b.isEmpty = false := by
    cases b with
    | nil => exact absurd rfl hne
    | cons c cs => rfl
  unfold cleanBase goTrimSpace
  rw [h1, h2, h3, h4, h5]
  simp [hemp]

/-- C8 (amended): `sanitizeFilename` preserves the original extension and
never returns an empty base name, on every input; it is idempotent on
every input whose cleaned base does not end in a space after the
50-character truncation (the truncation can cut directly after a kept
space, and only that trailing space is trimmed by a second
application). -/
theorem claim_C8_sanitize_amended (s : String) :
    ((cleanBase (baseOf s.data)).getLast? ≠ some ' ' →
      sanitizeFilename (sanitizeFilename s) = sanitizeFilename s) ∧
    extOf ((sanitizeFilename s).data) = extOf s.data ∧
    baseOf ((sanitizeFilename s).data) ≠ [] := by
  have hk := allKept_cleanBase (baseOf s.data)
  have hcf := collapsedForm_cleanBase (baseOf s.data)
  have hhd := headNotUniWs_cleanBase (baseOf s.data)
  have hne := cleanBase_ne_nil (baseOf s.data)
  have hlen := length_cleanBase (baseOf s.data)
  have hnodot : ∀ c ∈ cleanBase (baseOf s.data), c ≠ '.' :=
    fun c hc => (kept_ne_dot_slash (hk c hc)).1
  have hdata : (sanitizeFilename s).data =
      cleanBase (baseOf s.data) ++ extOf s.data := rfl
  have hext : extOf ((sanitizeFilename s).data) = extOf s.data := by
    rw [hdata]
    rcases extOf_shape s.data with hsh | ⟨v, hsh, hv⟩
    · rw [hsh, List.append_nil]
      exact extOf_nil_of_no_dot _ hnodot
    · rw [hsh]
      exact extOf_append_dot _ v hv
  have hbase : baseOf ((sanitizeFilename s).data) = cleanBase (baseOf s.data) := by
    rw [hdata]
    rcases extOf_shape s.data with hsh | ⟨v, hsh, hv⟩
    · rw [hsh, List.append_nil]
      exact baseOf_of_no_dot _ hnodot
    · rw [hsh]
      exact baseOf_append_dot _ v hv
  refine ⟨fun h => ?_, hext, by rw [hbase]; exact hne⟩
  have hlast := lastNotUniWs_of_not_space hk hcf h
  have hclean : cleanBase (cleanBase (baseOf s.data)) = cleanBase (baseOf s.data) :=
    cleanBase_eq_self hk hcf hhd hlast hlen hne
  show String.mk (cleanBase (baseOf (sanitizeFilename s).data) ++
    extOf (sanitizeFilename s).data) = sanitizeFilename s
  rw [hbase, hext, hclean]
  rfl

/-- C8 witness: on "My Receipt(1)!.jpg" the cleaned base ends in a letter,
so a double application is a fixed point, the ".jpg" extension survives and
the base is non-empty. -/
theorem claim_C8_sanitize_amended_witness :
    sanitizeFilename (sanitizeFilename "My Receipt(1)!.jpg") =
      sanitizeFilename "My Receipt(1)!.jpg" ∧
    extOf ((sanitizeFilename "My Receipt(1)!.jpg").data) =
      extOf ("My Receipt(1)!.jpg" : String).data ∧
    baseOf ((sanitizeFilename "My Receipt(1)!.jpg").data) ≠ [] :=
  ⟨(claim_C8_sanitize_amended "My Receipt(1)!.jpg").1 (by decide),
   (claim_C8_sanitize_amended "My Receipt(1)!.jpg").2⟩
